import Mathlib

/-!
Shallow embedding of the `fastify-mongo-sanitize` sanitization engine
(`index.js`, `helpers.js`, `constants.js`).

Modelling conventions:
* JS strings are modelled as Lean `String` / `List Char` (sequences of
  unicode scalar values; UTF-16 surrogate-pair length effects are outside
  the inputs of interest).
* JS numbers are modelled as `Int` (the behaviours under study never
  depend on float-specific values such as `NaN` or `-0`).
* The five default regular expressions of `constants.js` are embedded as
  the inductive `Pat`, each with its exact JS backtracking semantics,
  including the statefulness of `RegExp.prototype.test` on `/g`-flagged
  regexes: the mutable `lastIndex` of each pattern is threaded through
  the sanitizers as a `List Nat` parallel to the configured pattern list.
* `String.prototype.match` and `String.prototype.replace` on a global
  regex reset `lastIndex` to 0 before and after scanning, so their
  results are state-independent and their state effect is a reset.
* Logging and timing calls are pure console output and are omitted.
-/

/-- Character class of `/[\$]/g` (pattern 0 of `PATTERNS`). -/
def dollarClass (c : Char) : Bool := c = '$'

/-- Character class of `/\./g` (pattern 1 of `PATTERNS`). -/
def dotClass (c : Char) : Bool := c = '.'

/-- Character class of `/[\\\/{}.(*+?|[\]^)]/g` (pattern 2 of `PATTERNS`). -/
def specialClass (c : Char) : Bool :=
  c = '\\' || c = '/' || c = '{' || c = '}' || c = '.' || c = '(' || c = '*' ||
  c = '+' || c = '?' || c = '|' || c = '[' || c = ']' || c = '^' || c = ')'

/-- Character class of `/[\u0000-\u001F\u007F-\u009F]/g` (pattern 3 of `PATTERNS`). -/
def controlClass (c : Char) : Bool :=
  c.toNat ≤ 0x1F || (0x7F ≤ c.toNat && c.toNat ≤ 0x9F)

/-- The JS regex `\s` class (ECMAScript WhiteSpace plus LineTerminator). -/
def jsSpace (c : Char) : Bool :=
  c = ' ' || c = '\t' || c = '\n' || c.toNat = 0x0B || c.toNat = 0x0C || c = '\r' ||
  c.toNat = 0xA0 || c.toNat = 0x1680 || (0x2000 ≤ c.toNat && c.toNat ≤ 0x200A) ||
  c.toNat = 0x2028 || c.toNat = 0x2029 || c.toNat = 0x202F || c.toNat = 0x205F ||
  c.toNat = 0x3000 || c.toNat = 0xFEFF

/-- The five default sanitization regexes of `constants.js` (`PATTERNS`). -/
inductive Pat where
  | dollar
  | dot
  | special
  | control
  | braces
deriving DecidableEq

/-- Single-character class of the four class patterns (`braces` is handled
separately by `patMatchAt`). -/
def classOf : Pat → Char → Bool
  | .dollar, c => dollarClass c
  | .dot, c => dotClass c
  | .special, c => specialClass c
  | .control, c => controlClass c
  | .braces, _ => false

/-- Matcher for the subexpression `\s*\$` of the fifth pattern: since no
whitespace character is `$`, backtracking forces the whole maximal
whitespace run to be consumed before the `$`.  Returns the number of
characters consumed (including the `$`). -/
def wsThenDollar : List Char → Option Nat
  | [] => none
  | c :: cs =>
    if c = '$' then some 1
    else if jsSpace c then (wsThenDollar cs).map (· + 1)
    else none

/-- Matcher for `(.|\r?\n)*\}` of the fifth pattern, at the head of the
list.  `.` matches anything but a line terminator, so a lone `\r` (not
followed by `\n`) and U+2028/U+2029 are not consumable by the star.  The
greedy star prefers consuming, backtracking to the closing `\}` only when
the remainder fails, which selects the last reachable `}`.  Returns the
total number of characters matched (consumed run plus the `}`). -/
def starBody : List Char → Option Nat
  | [] => none
  | c :: cs =>
    if c.toNat = 0x2028 || c.toNat = 0x2029 then none
    else if c = '\r' then
      match cs with
      | '\n' :: cs' => (starBody cs').map (· + 2)
      | _ => none
    else
      match starBody cs with
      | some n => some (n + 1)
      | none => if c = '}' then some 1 else none

/-- First alternative `\{\s*\$` of the fifth pattern, anchored at the head. -/
def bracesAlt1 : List Char → Option Nat
  | '{' :: rest => (wsThenDollar rest).map (· + 1)
  | _ => none

/-- Second alternative `\$?\{(.|\r?\n)*\}` of the fifth pattern, anchored at
the head.  `\$?` greedily consumes a `$`; if the rest of the alternative
then fails, retrying without the `$` also fails (the same position would
have to be `{`), so no extra backtracking case is needed. -/
def bracesAlt2 : List Char → Option Nat
  | '$' :: '{' :: rest => (starBody rest).map (· + 2)
  | '{' :: rest => (starBody rest).map (· + 1)
  | _ => none

/-- Match length of pattern `p` anchored at the head of `cs` (JS alternation
tries the left alternative first). -/
def patMatchAt (p : Pat) (cs : List Char) : Option Nat :=
  match p with
  | .braces =>
    match bracesAlt1 cs with
    | some n => some n
    | none => bracesAlt2 cs
  | _ =>
    match cs with
    | c :: _ => if classOf p c then some 1 else none
    | [] => none

/-- Leftmost match of `p` in `cs`: returns `(start, length)` of the first
match, scanning positions left to right as the JS regex engine does. -/
def patFindAux (p : Pat) : List Char → Option (Nat × Nat)
  | [] => none
  | cs@(_ :: rest) =>
    match patMatchAt p cs with
    | some n => some (0, n)
    | none => (patFindAux p rest).map (fun q => (q.1 + 1, q.2))

/-- `RegExp.prototype.test` on a `/g` regex: searches from `lastIndex`; on a
match returns `true` and sets `lastIndex` to the end of the match, on
failure returns `false` and resets `lastIndex` to 0. -/
def jsTest (p : Pat) (cs : List Char) (lastIdx : Nat) : Bool × Nat :=
  match patFindAux p (cs.drop lastIdx) with
  | some q => (true, lastIdx + q.1 + q.2)
  | none => (false, 0)

/-- Replacement loop of `String.prototype.replace` with a `/g` regex: finds
successive matches and splices in the replacement.  All five patterns only
produce non-empty matches, so fuel `cs.length` always suffices. -/
def replLoop (p : Pat) (repl : List Char) : Nat → List Char → List Char
  | 0, cs => cs
  | fuel + 1, cs =>
    match patFindAux p cs with
    | none => cs
    | some q => cs.take q.1 ++ repl ++ replLoop p repl fuel (cs.drop (q.1 + q.2))

/-- `str.replace(pattern, replaceWith)` for a `/g`-flagged pattern: replaces
every occurrence.  (`$`-escapes in the replacement string are not modelled;
every claim under study uses the default replacement `''`.) -/
def jsReplaceAll (p : Pat) (s : String) (repl : String) : String :=
  (replLoop p repl.toList (s.toList.length + 1) s.toList).asString

/-- Character class `[a-zA-Z0-9._%+-]` of the email local part. -/
def emailLocalChar (c : Char) : Bool :=
  c.isAlpha || c.isDigit || c = '.' || c = '_' || c = '%' || c = '+' || c = '-'

/-- Character class `[a-zA-Z0-9.-]` of the email domain part. -/
def emailDomainChar (c : Char) : Bool :=
  c.isAlpha || c.isDigit || c = '.' || c = '-'

/-- Anchored match of `[a-zA-Z0-9.-]+\.[a-zA-Z]{2,}` over the whole list:
there is a split at some `.` with a non-empty domain-char prefix and an
all-letter suffix of length at least 2. -/
def emailDomain (cs : List Char) : Bool :=
  (List.range cs.length).any fun j =>
    cs.getD j ' ' = '.' && decide (0 < j) && (cs.take j).all emailDomainChar &&
    decide (j + 3 ≤ cs.length) && (cs.drop (j + 1)).all (fun c => c.isAlpha)

/-- The helper `isEmail`: full-string match of
`/^[a-zA-Z0-9._%+-]+@[a-zA-Z0-9.-]+\.[a-zA-Z]{2,}$/i`.  Neither character
class contains `@`, so a match is exactly a split at an `@` with a
non-empty local part and a matching domain. -/
def isEmail (s : String) : Bool :=
  let cs := s.toList
  (List.range cs.length).any fun i =>
    cs.getD i ' ' = '@' && decide (0 < i) && (cs.take i).all emailLocalChar &&
    emailDomain (cs.drop (i + 1))

/-- `String.prototype.trim`: strip the JS whitespace class from both ends. -/
def jsTrim (s : String) : String :=
  (((s.toList.dropWhile jsSpace).reverse.dropWhile jsSpace).reverse).asString

/-- `String.prototype.toLowerCase`, restricted to ASCII case mapping (every
configuration under study leaves `lowercase` disabled). -/
def jsToLower (s : String) : String := (s.toList.map Char.toLower).asString

/-- `String.prototype.slice(0, m)` for a non-negative `m`. -/
def jsSliceTo (m : Nat) (s : String) : String := (s.toList.take m).asString

/-- The `stringOptions` sub-configuration (`trim`, `lowercase`,
`maxLength`); `maxLength : Option Nat` models `null`-or-number, with the
JS truthiness check `stringOptions.maxLength && isValue` reading `none`
and `some 0` as falsy. -/
structure StringShape where
  trim : Bool
  lowercase : Bool
  maxLength : Option Nat

/-- The `arrayOptions` sub-configuration (`filterNull`, `distinct`). -/
structure ArrayShape where
  filterNull : Bool
  distinct : Bool

/-- The sanitization-relevant configuration record (`DEFAULT_OPTIONS`
merged with caller overrides).  `mode`, `sanitizeObjects`, `skipRoutes`,
`customSanitizer` and `debug` live at the orchestrator level and are
modelled separately. -/
structure SanOptions where
  replaceWith : String
  removeMatches : Bool
  recursive : Bool
  removeEmpty : Bool
  patterns : List Pat
  allowedKeys : Option (List String)
  deniedKeys : Option (List String)
  stringShape : StringShape
  arrayShape : ArrayShape

/-- The default `PATTERNS` list of `constants.js`, in source order. -/
def defaultPatterns : List Pat := [.dollar, .dot, .special, .control, .braces]

/-- The sanitization fields of `DEFAULT_OPTIONS` in `constants.js`. -/
def defaultOptions : SanOptions where
  replaceWith := ""
  removeMatches := false
  recursive := true
  removeEmpty := false
  patterns := defaultPatterns
  allowedKeys := none
  deniedKeys := none
  stringShape := { trim := false, lowercase := false, maxLength := none }
  arrayShape := { filterNull := false, distinct := false }

/-- JSON-like runtime values flowing through the sanitizer.  `vOther`
stands for values of unrecognized runtime type (functions, symbols,
class instances, ...), which every code path passes through unchanged;
`vDate` models `Date` instances (also passed through). -/
inductive Value where
  | vNull
  | vUndef
  | vNum (n : Int)
  | vBool (b : Bool)
  | vStr (s : String)
  | vDate (t : Int)
  | vArr (items : List Value)
  | vObj (entries : List (String × Value))
  | vOther (tag : Nat)

/-- The helper `isString` as a shape predicate on modelled values. -/
def isStrV : Value → Bool
  | .vStr _ => true
  | _ => false

/-- The helper `isArray` as a shape predicate on modelled values. -/
def isArrV : Value → Bool
  | .vArr _ => true
  | _ => false

/-- The helper `isPlainObject` as a shape predicate on modelled values. -/
def isObjV : Value → Bool
  | .vObj _ => true
  | _ => false

/-- JS truthiness of a modelled value (`Boolean(v)`); arrays, objects and
dates are always truthy, functions and other opaque values likewise. -/
def truthy : Value → Bool
  | .vNull => false
  | .vUndef => false
  | .vNum n => n != 0
  | .vBool b => b
  | .vStr s => !s.isEmpty
  | _ => true

/-- SameValueZero equality as used by `new Set(...)`: primitives compare
by value; arrays, objects, dates and opaque values compare by object
identity, and the deduplicated list is produced element-wise by the
sanitizer, so two composite elements are never the same reference. -/
def svzEq : Value → Value → Bool
  | .vNull, .vNull => true
  | .vUndef, .vUndef => true
  | .vNum a, .vNum b => a == b
  | .vBool a, .vBool b => a == b
  | .vStr a, .vStr b => a == b
  | _, _ => false

/-- `[...new Set(xs)]`: keep the first occurrence of each element
(SameValueZero), preserving order; `seen` accumulates kept elements. -/
def dedupSvz (seen : List Value) : List Value → List Value
  | [] => []
  | x :: xs =>
    if seen.any (fun y => svzEq y x) then dedupSvz seen xs
    else x :: dedupSvz (x :: seen) xs

/-- Property assignment `acc[k] = v` on the accumulator object: an
existing key keeps its insertion position and gets the new value, a new
key is appended. -/
def setKey (acc : List (String × Value)) (k : String) (v : Value) :
    List (String × Value) :=
  if acc.any (fun e => e.1 = k) then
    acc.map (fun e => if e.1 = k then (k, v) else e)
  else acc ++ [(k, v)]

/-- `sanitizeString` of `index.js` (result component).  The argument is
always a string here, so of the guard `!isString(str) || isEmail(str)`
only the email test remains; an email is returned untouched regardless of
key/value position.  Otherwise every configured pattern is applied in
list order to the accumulating string (`String.replace`, global, hence
all occurrences), then the string shaping steps run in the fixed order
trim, lowercase, length cap — the cap only in value position. -/
def sanStr (o : SanOptions) (isValue : Bool) (s : String) : String :=
  if isEmail s then s
  else
    let r := o.patterns.foldl (fun acc p => jsReplaceAll p acc o.replaceWith) s
    let r := if o.stringShape.trim then jsTrim r else r
    let r := if o.stringShape.lowercase then jsToLower r else r
    match o.stringShape.maxLength with
    | some m => if m ≠ 0 && isValue then jsSliceTo m r else r
    | none => r

/-- The `lastIndex` state vector, one entry per configured pattern. -/
def zerosOf (o : SanOptions) : List Nat := List.replicate o.patterns.length 0

/-- Regex-state effect of `sanitizeString`: on the early email return no
pattern is touched; otherwise `match` and `replace` run on every pattern
and each leaves its `lastIndex` at 0. -/
def strState (o : SanOptions) (s : String) (σ : List Nat) : List Nat :=
  if isEmail s then σ else zerosOf o

/-- `patterns.some((pattern) => pattern.test(x))`: short-circuiting fold
over the pattern list with the per-pattern `lastIndex` state; a failing
test resets its pattern's `lastIndex` to 0, a successful test advances it
and stops, leaving later patterns untouched. -/
def someTest (ps : List Pat) (cs : List Char) (σ : List Nat) :
    Bool × List Nat :=
  match ps with
  | [] => (false, [])
  | p :: rest =>
    let r := jsTest p cs (σ.headD 0)
    if r.1 then (true, r.2 :: σ.tail)
    else
      let q := someTest rest cs σ.tail
      (q.1, r.2 :: q.2)

/-- Key-drop test of the `allowedKeys` option: active only when the list
is non-null and non-empty (`allowedKeys && allowedKeys.length`). -/
def allowedDrop (o : SanOptions) (k : String) : Bool :=
  match o.allowedKeys with
  | some l => !l.isEmpty && !l.contains k
  | none => false

/-- Key-drop test of the `deniedKeys` option: active only when the list is
non-null and non-empty. -/
def deniedDrop (o : SanOptions) (k : String) : Bool :=
  match o.deniedKeys with
  | some l => !l.isEmpty && l.contains k
  | none => false

/-- Email-string test on a value (`isString(value) && isEmail(value)`). -/
def isEmailStr : Value → Bool
  | .vStr s => isEmail s
  | _ => false

/-- The underlying string of a string value (unused placeholder for other
shapes; only read under an `isStrV` guard). -/
def strOfV : Value → String
  | .vStr s => s
  | _ => ""

mutual

/-- `sanitizeValue` of `index.js`: dispatch on runtime shape.  `== null`
catches null and undefined; `isPrimitive` numbers and booleans; dates are
returned unchanged; strings go to `sanitizeString`; arrays and objects
recurse (their type guards hold by construction here); anything else is
returned unchanged.  The second component is the updated `lastIndex`
state of the configured patterns. -/
def sanitizeValue (o : SanOptions) (v : Value) (isValue : Bool)
    (σ : List Nat) : Value × List Nat :=
  match v with
  | .vNull => (v, σ)
  | .vUndef => (v, σ)
  | .vNum _ => (v, σ)
  | .vBool _ => (v, σ)
  | .vDate _ => (v, σ)
  | .vStr s => (.vStr (sanStr o isValue s), strState o s σ)
  | .vArr xs =>
    let r := sanArrElems o xs σ
    let ys := if o.arrayShape.filterNull then r.1.filter truthy else r.1
    let ys := if o.arrayShape.distinct then dedupSvz [] ys else ys
    (.vArr ys, r.2)
  | .vObj es =>
    let r := sanObjEntries o es [] σ
    (.vObj r.1, r.2)
  | .vOther _ => (v, σ)

/-- Element-wise pass of `sanitizeArray` (`arr.map(...)`): when recursion
is disabled, nested objects and arrays pass through untouched; otherwise
each element is sanitized via `sanitizeValue` with `isValue` left
undefined (hence falsy). -/
def sanArrElems (o : SanOptions) (xs : List Value) (σ : List Nat) :
    List Value × List Nat :=
  match xs with
  | [] => ([], σ)
  | x :: rest =>
    let r :=
      if !o.recursive && (isObjV x || isArrV x) then (x, σ)
      else sanitizeValue o x false σ
    let q := sanArrElems o rest r.2
    (r.1 :: q.1, q.2)

/-- Entry fold of `sanitizeObject` (`Object.entries(obj).reduce(...)`),
with accumulator `acc` and pattern state `σ`, in source order: allow-list
drop, deny-list drop, key sanitization, email-value preservation,
remove-on-match key test, empty-key drop, remove-on-match value test,
value sanitization (skipping nested containers when recursion is off),
empty-value drop, assignment. -/
def sanObjEntries (o : SanOptions) (es : List (String × Value))
    (acc : List (String × Value)) (σ : List Nat) :
    List (String × Value) × List Nat :=
  match es with
  | [] => (acc, σ)
  | (k, v) :: rest =>
    if allowedDrop o k then sanObjEntries o rest acc σ
    else if deniedDrop o k then sanObjEntries o rest acc σ
    else
      let sk := sanStr o false k
      let σ₁ := strState o k σ
      if isEmailStr v then sanObjEntries o rest (setKey acc sk v) σ₁
      else
        let kt :=
          if o.removeMatches then someTest o.patterns k.toList σ₁
          else (false, σ₁)
        if kt.1 then sanObjEntries o rest acc kt.2
        else if o.removeEmpty && sk.isEmpty then sanObjEntries o rest acc kt.2
        else
          let vt :=
            if o.removeMatches && isStrV v then
              someTest o.patterns (strOfV v).toList kt.2
            else (false, kt.2)
          if vt.1 then sanObjEntries o rest acc vt.2
          else
            let r :=
              if !o.recursive && (isObjV v || isArrV v) then (v, vt.2)
              else sanitizeValue o v true vt.2
            if o.removeEmpty && !truthy r.1 then sanObjEntries o rest acc r.2
            else sanObjEntries o rest (setKey acc sk r.1) r.2

end

example : (sanitizeValue defaultOptions (.vStr "a$b.c") true []).1 = .vStr "abc" := by
  simp [sanitizeValue]
  decide

/-- The `FastifyMongoSanitizeError` payload: message and error type. -/
structure SanError where
  message : String
  errType : String
deriving DecidableEq

/-- Array post-processing of `sanitizeArray` after the type guard:
element-wise pass, then `filter(Boolean)` when `filterNull` is set, then
set-based deduplication when `distinct` is set. -/
def sanArrCore (o : SanOptions) (xs : List Value) (σ : List Nat) :
    Value × List Nat :=
  let r := sanArrElems o xs σ
  let ys := if o.arrayShape.filterNull then r.1.filter truthy else r.1
  let ys := if o.arrayShape.distinct then dedupSvz [] ys else ys
  (.vArr ys, r.2)

/-- Public `sanitizeArray`: throws a `type_error` unless the input is an
array (`if (!isArray(arr)) throw ...`). -/
def sanitizeArrayE (o : SanOptions) (v : Value) (σ : List Nat) :
    Except SanError (Value × List Nat) :=
  match v with
  | .vArr xs => .ok (sanArrCore o xs σ)
  | _ => .error ⟨"Input must be an array", "type_error"⟩

/-- Public `sanitizeObject`: throws a `type_error` unless the input is a
plain object (`if (!isPlainObject(obj)) throw ...`). -/
def sanitizeObjectE (o : SanOptions) (v : Value) (σ : List Nat) :
    Except SanError (Value × List Nat) :=
  match v with
  | .vObj es =>
    let r := sanObjEntries o es [] σ
    .ok (.vObj r.1, r.2)
  | _ => .error ⟨"Input must be an object", "type_error"⟩

/-- `sanitizeValue` with the throwing entry points left in place, to state
that the dispatcher itself never propagates a type error: the array and
object branches invoke the guarded entry points, all other shapes return
directly. -/
def sanitizeValueE (o : SanOptions) (v : Value) (isValue : Bool)
    (σ : List Nat) : Except SanError (Value × List Nat) :=
  match v with
  | .vNull => .ok (v, σ)
  | .vUndef => .ok (v, σ)
  | .vNum _ => .ok (v, σ)
  | .vBool _ => .ok (v, σ)
  | .vDate _ => .ok (v, σ)
  | .vStr s => .ok (.vStr (sanStr o isValue s), strState o s σ)
  | .vArr _ => sanitizeArrayE o v σ
  | .vObj _ => sanitizeObjectE o v σ
  | .vOther _ => .ok (v, σ)

/-- The helper `cleanUrl` on strings: empty input is falsy and yields
null; otherwise the part before the first `?` or `#` is kept, leading and
trailing `/` runs are stripped (`/^\/+|\/+$/g`), and an empty remainder
yields null, else a single leading `/` plus the remainder. -/
def cleanUrlStr (url : String) : Option String :=
  if url.isEmpty then none
  else
    let path := url.toList.takeWhile (fun c => c ≠ '?' && c ≠ '#')
    let t := ((path.dropWhile (· = '/')).reverse.dropWhile (· = '/')).reverse
    if t.isEmpty then none else some ('/' :: t).asString

/-- The helper `cleanUrl` on arbitrary values: the `typeof url !== 'string'`
guard makes every non-string input yield null. -/
def cleanUrlV : Value → Option String
  | .vStr s => cleanUrlStr s
  | _ => none

/-- `new Set((opt.skipRoutes || []).map(cleanUrl))`: the normalized skip
routes with duplicates removed (first occurrence kept).  A route that
normalizes to null contributes `none` to the set. -/
def skipSetOf (routes : List String) : List (Option String) :=
  (routes.map cleanUrlStr).foldl
    (fun acc x => if acc.contains x then acc else acc ++ [x]) []

/-- The skip decision of the auto-mode `preHandler` hook: when the skip
set is non-empty, normalize the request URL and test set membership. -/
def shouldSkip (routes : List String) (url : String) : Bool :=
  let ss := skipSetOf routes
  !ss.isEmpty && ss.contains (cleanUrlStr url)

/-- A request: its URL and the named request-scoped structures
(`body`, `params`, `query`, ...). -/
structure Request where
  url : String
  fields : List (String × Value)

/-- Field lookup `request[name]` (absent fields read as undefined). -/
def getField (fields : List (String × Value)) (name : String) : Option Value :=
  (fields.find? (fun e => e.1 = name)).map (·.2)

/-- `handleRequest`: for each configured target field present (and truthy)
on the request, replace it with the custom sanitizer's output when one is
configured, else with `sanitizeValue` of (a shallow copy of) the field.
The shallow copy is identity in this tree-valued model. -/
def handleRequest (o : SanOptions) (targets : List String)
    (custom : Option (Value → Value)) (fields : List (String × Value))
    (σ : List Nat) : List (String × Value) × List Nat :=
  targets.foldl
    (fun st t =>
      match getField st.1 t with
      | some v =>
        if truthy v then
          match custom with
          | some f => (setKey st.1 t (f v), st.2)
          | none =>
            let r := sanitizeValue o v false st.2
            (setKey st.1 t r.1, r.2)
        else st
      | none => st)
    (fields, σ)

/-- The auto-mode `preHandler` hook: if the request URL is skip-matched
the request passes through untouched, otherwise every configured target
field is sanitized by `handleRequest`. -/
def preHandler (routes : List String) (o : SanOptions)
    (targets : List String) (custom : Option (Value → Value))
    (req : Request) (σ : List Nat) : Request × List Nat :=
  if shouldSkip routes req.url then (req, σ)
  else
    let r := handleRequest o targets custom req.fields σ
    ({ req with fields := r.1 }, r.2)

/-- The default `sanitizeObjects` target list. -/
def defaultTargets : List String := ["body", "params", "query"]

/-- The default pattern fold of `sanitizeString` with the default
replacement string `''`: the five `PATTERNS` applied in list order on the
accumulating string. -/
def scrub (s : String) : String :=
  defaultPatterns.foldl (fun acc p => jsReplaceAll p acc "") s

lemma wsThenDollar_bounds : ∀ cs n, wsThenDollar cs = some n →
    1 ≤ n ∧ n ≤ cs.length := by
  intro cs
  induction cs with
  | nil => intro n h; simp [wsThenDollar] at h
  | cons c cs ih =>
    intro n h
    simp only [wsThenDollar] at h
    split_ifs at h with h1 h2
    · simp only [Option.some.injEq] at h
      simp only [List.length_cons]
      omega
    · cases hw : wsThenDollar cs with
      | none => rw [hw] at h; simp at h
      | some m =>
        rw [hw] at h; simp at h
        have := ih m hw
        simp only [List.length_cons]
        omega


lemma starBody_bounds : ∀ cs n, starBody cs = some n → 1 ≤ n ∧ n ≤ cs.length := by
  intro cs
  induction cs using starBody.induct with
  | case1 => intro n h; simp [starBody] at h
  | case2 c cs hb =>
    intro n h
    rw [starBody.eq_def] at h
    simp only [hb, if_true] at h
    exact absurd h (by simp)
  | case3 cs' hb ih =>
    intro n h
    rw [starBody.eq_def] at h
    simp only [hb] at h
    simp at h
    obtain ⟨m, hm, hn⟩ := h
    have := ih m hm
    simp only [List.length_cons]
    omega
  | case4 cs hne hb =>
    intro n h
    rw [starBody.eq_def] at h
    simp only [hb] at h
    simp at h
  | case5 c cs hb hr m hsome ih =>
    intro n h
    rw [starBody.eq_def] at h
    simp only [hb, hr] at h
    simp only [if_neg hb, if_neg hr, hsome] at h
    simp at h
    have := ih m hsome
    simp only [List.length_cons]
    omega
  | case6 cs hnone hb hr ih =>
    intro n h
    rw [starBody.eq_def] at h
    simp only [if_neg hb, if_neg hr, hnone] at h
    simp at h
    simp only [List.length_cons]
    omega
  | case7 c cs hb hr hnone hc ih =>
    intro n h
    rw [starBody.eq_def] at h
    simp only [if_neg hb, if_neg hr, hnone, if_neg hc] at h
    simp at h

lemma bracesAlt1_bounds (cs : List Char) (n : Nat) (h : bracesAlt1 cs = some n) :
    1 ≤ n ∧ n ≤ cs.length := by
  rw [bracesAlt1.eq_def] at h
  split at h
  next rest =>
    cases hw : wsThenDollar rest with
    | none => rw [hw] at h; simp at h
    | some m =>
      rw [hw] at h; simp at h
      have := wsThenDollar_bounds rest m hw
      simp only [List.length_cons]
      omega
  next => simp at h

lemma bracesAlt2_bounds (cs : List Char) (n : Nat) (h : bracesAlt2 cs = some n) :
    1 ≤ n ∧ n ≤ cs.length := by
  rw [bracesAlt2.eq_def] at h
  split at h
  next rest =>
    cases hw : starBody rest with
    | none => rw [hw] at h; simp at h
    | some m =>
      rw [hw] at h; simp at h
      have := starBody_bounds rest m hw
      simp only [List.length_cons]
      omega
  next rest =>
    cases hw : starBody rest with
    | none => rw [hw] at h; simp at h
    | some m =>
      rw [hw] at h; simp at h
      have := starBody_bounds rest m hw
      simp only [List.length_cons]
      omega
  next => simp at h

lemma patMatchAt_bounds (p : Pat) (cs : List Char) (n : Nat)
    (h : patMatchAt p cs = some n) : 1 ≤ n ∧ n ≤ cs.length := by
  cases p <;> simp only [patMatchAt] at h
  case braces =>
    cases h1 : bracesAlt1 cs with
    | some m => rw [h1] at h; simp at h; subst h; exact bracesAlt1_bounds cs m h1
    | none => rw [h1] at h; simp at h; exact bracesAlt2_bounds cs n h
  all_goals
    split at h
  all_goals simp at h
  all_goals
    obtain ⟨-, hn⟩ := h
    simp only [List.length_cons]
    omega

lemma patFindAux_bounds (p : Pat) : ∀ cs a n, patFindAux p cs = some (a, n) →
    1 ≤ n ∧ a + n ≤ cs.length := by
  intro cs
  induction cs with
  | nil => intro a n h; simp [patFindAux] at h
  | cons c rest ih =>
    intro a n h
    rw [patFindAux] at h
    cases hm : patMatchAt p (c :: rest) with
    | some m =>
      rw [hm] at h; simp at h
      obtain ⟨ha, hn⟩ := h
      have := patMatchAt_bounds p (c :: rest) m hm
      subst ha; subst hn
      simpa using this
    | none =>
      rw [hm] at h; simp at h
      obtain ⟨a', hfind, ha⟩ := h
      have := ih a' n hfind
      simp only [List.length_cons]
      omega

lemma replLoop_fuel (p : Pat) (r : List Char) :
    ∀ f₁ f₂ cs, cs.length ≤ f₁ → cs.length ≤ f₂ →
      replLoop p r f₁ cs = replLoop p r f₂ cs := by
  intro f₁
  induction f₁ with
  | zero =>
    intro f₂ cs h1 h2
    have : cs = [] := List.length_eq_zero.mp (Nat.le_zero.mp h1)
    subst this
    cases f₂ <;> simp [replLoop, patFindAux]
  | succ f ih =>
    intro f₂ cs h1 h2
    cases hf : patFindAux p cs with
    | none =>
      cases f₂ with
      | zero =>
        have : cs = [] := List.length_eq_zero.mp (Nat.le_zero.mp h2)
        subst this; simp [replLoop, hf]
      | succ g => simp [replLoop, hf]
    | some q =>
      obtain ⟨a, n⟩ := q
      have hb := patFindAux_bounds p cs a n hf
      cases f₂ with
      | zero =>
        exfalso
        have : cs = [] := List.length_eq_zero.mp (Nat.le_zero.mp h2)
        subst this
        simp [patFindAux] at hf
      | succ g =>
        simp only [replLoop, hf]
        have hlen : (cs.drop (a + n)).length ≤ f := by
          simp only [List.length_drop]
          omega
        have hlen2 : (cs.drop (a + n)).length ≤ g := by
          simp only [List.length_drop]
          omega
        rw [ih g (cs.drop (a + n)) hlen hlen2]

lemma replLoop_sublist (p : Pat) : ∀ fuel cs,
    (replLoop p [] fuel cs).Sublist cs := by
  intro fuel
  induction fuel with
  | zero => intro cs; simp [replLoop]
  | succ f ih =>
    intro cs
    cases hf : patFindAux p cs with
    | none => simp [replLoop, hf]
    | some q =>
      obtain ⟨a, n⟩ := q
      simp only [replLoop, hf, List.append_nil]
      have h1 : (replLoop p [] f (cs.drop (a + n))).Sublist (cs.drop (a + n)) := ih _
      have h2 : (cs.drop (a + n)).Sublist (cs.drop a) := by
        have hd : (cs.drop a).drop n = cs.drop (a + n) := by
          rw [List.drop_drop, Nat.add_comm]
        rw [← hd]
        exact List.drop_sublist _ _
      have h3 : (cs.take a ++ replLoop p [] f (cs.drop (a + n))).Sublist
          (cs.take a ++ cs.drop a) :=
        List.Sublist.append (List.Sublist.refl _) (h1.trans h2)
      simpa using h3

lemma patMatchAt_class (p : Pat) (hp : p ≠ .braces) (c : Char) (rest : List Char) :
    patMatchAt p (c :: rest) = if classOf p c then some 1 else none := by
  cases p <;> first
    | exact absurd rfl hp
    | simp only [patMatchAt]

lemma patFindAux_class_none_iff (p : Pat) (hp : p ≠ .braces) :
    ∀ cs, patFindAux p cs = none ↔ ∀ c ∈ cs, classOf p c = false := by
  intro cs
  induction cs with
  | nil => simp [patFindAux]
  | cons c rest ih =>
    rw [patFindAux, patMatchAt_class p hp]
    by_cases hc : classOf p c
    · simp [hc]
    · simp only [hc, if_false, if_neg]
      constructor
      · intro h x hx
        rcases List.mem_cons.mp hx with h1 | h1
        · subst h1; simpa using hc
        · simp at h
          exact (ih.mp h) x h1
      · intro h
        have : patFindAux p rest = none :=
          ih.mpr (fun x hx => h x (List.mem_cons_of_mem c hx))
        simp [this]

lemma patFindAux_none_of_class (p : Pat) (hp : p ≠ .braces) (cs : List Char)
    (h : ∀ c ∈ cs, classOf p c = false) : patFindAux p cs = none :=
  (patFindAux_class_none_iff p hp cs).mpr h

lemma patMatchAt_braces_none (cs : List Char) (hall : ∀ c ∈ cs, c ≠ '{') :
    patMatchAt .braces cs = none := by
  have h1 : bracesAlt1 cs = none := by
    rw [bracesAlt1.eq_def]
    split
    next rest => exact absurd rfl (hall '{' (by simp))
    next => rfl
  have h2 : bracesAlt2 cs = none := by
    rw [bracesAlt2.eq_def]
    split
    next rest => exact absurd rfl (hall '{' (by simp))
    next rest => exact absurd rfl (hall '{' (by simp))
    next => rfl
  simp [patMatchAt, h1, h2]

lemma patFindAux_braces_none :
    ∀ cs, (∀ c ∈ cs, c ≠ '{') → patFindAux .braces cs = none := by
  intro cs
  induction cs with
  | nil => intro _; simp [patFindAux]
  | cons c rest ih =>
    intro hall
    rw [patFindAux, patMatchAt_braces_none _ hall,
      ih (fun x hx => hall x (List.mem_cons_of_mem c hx))]
    rfl

lemma replLoop_of_none (p : Pat) (r : List Char) (fuel : Nat) (cs : List Char)
    (h : patFindAux p cs = none) : replLoop p r fuel cs = cs := by
  cases fuel <;> simp [replLoop, h]

lemma replLoop_class_filter (p : Pat) (hp : p ≠ .braces) :
    ∀ fuel cs, cs.length ≤ fuel →
      replLoop p [] fuel cs = cs.filter (fun c => !classOf p c) := by
  intro fuel
  induction fuel with
  | zero =>
    intro cs h
    have : cs = [] := List.length_eq_zero.mp (Nat.le_zero.mp h)
    subst this; simp [replLoop]
  | succ f ih =>
    intro cs h
    cases cs with
    | nil => simp [replLoop, patFindAux]
    | cons c rest =>
      have hlen : rest.length ≤ f := by simp at h; omega
      by_cases hc : classOf p c
      · have hfind : patFindAux p (c :: rest) = some (0, 1) := by
          rw [patFindAux, patMatchAt_class p hp]
          simp [hc]
        simp only [replLoop, hfind, List.take_zero, List.nil_append,
          List.filter_cons, hc]
        have hd : List.drop (0 + 1) (c :: rest) = rest := by simp
        rw [hd, ih rest hlen]
        simp
      · have hm := patMatchAt_class p hp c rest
        rw [if_neg hc] at hm
        cases hfr : patFindAux p rest with
        | none =>
          have hfind : patFindAux p (c :: rest) = none := by
            rw [patFindAux, hm, hfr]; rfl
          rw [replLoop_of_none p [] (f + 1) _ hfind]
          have hall := (patFindAux_class_none_iff p hp rest).mp hfr
          rw [List.filter_eq_self.mpr]
          intro a ha
          rcases List.mem_cons.mp ha with h1 | h1
          · subst h1; simpa using hc
          · simp [hall a h1]
        | some q =>
          obtain ⟨a, n⟩ := q
          have hb := patFindAux_bounds p rest a n hfr
          have hrest1 : 1 ≤ rest.length := by omega
          obtain ⟨f', rfl⟩ : ∃ f', f = f' + 1 := ⟨f - 1, by omega⟩
          have hfind : patFindAux p (c :: rest) = some (a + 1, n) := by
            rw [patFindAux, hm, hfr]; rfl
          have htake : (c :: rest).take (a + 1) = c :: rest.take a := by simp
          have hdrop : (c :: rest).drop (a + 1 + n) = rest.drop (a + n) := by
            rw [show a + 1 + n = (a + n) + 1 by omega, List.drop_succ_cons]
          rw [show replLoop p [] (f' + 1 + 1) (c :: rest) =
              (c :: rest).take (a + 1) ++ [] ++
                replLoop p [] (f' + 1) ((c :: rest).drop (a + 1 + n)) by
            rw [replLoop, hfind]]
          rw [htake, hdrop]
          have hflt : List.filter (fun x => !classOf p x) (c :: rest) =
              c :: List.filter (fun x => !classOf p x) rest := by
            simp [List.filter_cons, hc]
          rw [hflt, ← ih rest hlen]
          rw [show replLoop p [] (f' + 1) rest =
              rest.take a ++ [] ++ replLoop p [] f' (rest.drop (a + n)) by
            rw [replLoop, hfr]]
          have hfuel : replLoop p [] (f' + 1) (rest.drop (a + n)) =
              replLoop p [] f' (rest.drop (a + n)) := by
            apply replLoop_fuel <;> simp only [List.length_drop] <;> omega
          rw [hfuel]
          simp

lemma toList_asString (l : List Char) : (l.asString).toList = l := rfl

lemma asString_toList (s : String) : (s.toList).asString = s := rfl

lemma jsReplaceAll_class (p : Pat) (hp : p ≠ .braces) (s : String) :
    jsReplaceAll p s "" = (s.toList.filter (fun c => !classOf p c)).asString := by
  unfold jsReplaceAll
  rw [show ("" : String).toList = [] from rfl,
    replLoop_class_filter p hp _ _ (by omega)]

lemma jsReplaceAll_subset (p : Pat) (s : String) (x : Char)
    (h : x ∈ (jsReplaceAll p s "").toList) : x ∈ s.toList := by
  unfold jsReplaceAll at h
  rw [toList_asString] at h
  exact (replLoop_sublist p _ _).subset h

lemma jsReplaceAll_braces_id (s : String) (h : ∀ c ∈ s.toList, c ≠ '{') :
    jsReplaceAll .braces s "" = s := by
  unfold jsReplaceAll
  rw [replLoop_of_none _ _ _ _ (patFindAux_braces_none _ h), asString_toList]

lemma scrub_eq (s : String) : scrub s =
    jsReplaceAll .braces (jsReplaceAll .control (jsReplaceAll .special
      (jsReplaceAll .dot (jsReplaceAll .dollar s "") "") "") "") "" := rfl

lemma scrub_no_special (s : String) :
    ∀ x ∈ (scrub s).toList, specialClass x = false := by
  intro x hx
  rw [scrub_eq] at hx
  have h1 := jsReplaceAll_subset _ _ _ hx
  have h2 := jsReplaceAll_subset _ _ _ h1
  rw [jsReplaceAll_class .special (by simp) _, toList_asString] at h2
  have := List.of_mem_filter h2
  simpa [classOf] using this

lemma scrub_no_dot (s : String) : ∀ x ∈ (scrub s).toList, x ≠ '.' := by
  intro x hx
  rw [scrub_eq] at hx
  have h1 := jsReplaceAll_subset _ _ _ hx
  have h2 := jsReplaceAll_subset _ _ _ h1
  have h3 := jsReplaceAll_subset _ _ _ h2
  rw [jsReplaceAll_class .dot (by simp) _, toList_asString] at h3
  have := List.of_mem_filter h3
  simp only [classOf, dotClass] at this
  intro heq
  subst heq
  simp at this

lemma scrub_no_dollar (s : String) : ∀ x ∈ (scrub s).toList, x ≠ '$' := by
  intro x hx
  rw [scrub_eq] at hx
  have h1 := jsReplaceAll_subset _ _ _ hx
  have h2 := jsReplaceAll_subset _ _ _ h1
  have h3 := jsReplaceAll_subset _ _ _ h2
  have h4 := jsReplaceAll_subset _ _ _ h3
  rw [jsReplaceAll_class .dollar (by simp) _, toList_asString] at h4
  have := List.of_mem_filter h4
  simp only [classOf, dollarClass] at this
  intro heq
  subst heq
  simp at this

lemma scrub_idem (s : String) : scrub (scrub s) = scrub s := by
  have hnospec := scrub_no_special s
  have hnobrace : ∀ x ∈ (scrub s).toList, x ≠ '{' := by
    intro x hx heq
    have := hnospec x hx
    subst heq
    simp [specialClass] at this
  have stage1 : jsReplaceAll .dollar (scrub s) "" = scrub s := by
    rw [jsReplaceAll_class .dollar (by simp), List.filter_eq_self.mpr, asString_toList]
    intro a ha
    have := scrub_no_dollar s a ha
    simp [classOf, dollarClass, this]
  have stage2 : jsReplaceAll .dot (scrub s) "" = scrub s := by
    rw [jsReplaceAll_class .dot (by simp), List.filter_eq_self.mpr, asString_toList]
    intro a ha
    have := scrub_no_dot s a ha
    simp [classOf, dotClass, this]
  have stage3 : jsReplaceAll .special (scrub s) "" = scrub s := by
    rw [jsReplaceAll_class .special (by simp), List.filter_eq_self.mpr, asString_toList]
    intro a ha
    simp [classOf, hnospec a ha]
  have stage4 : jsReplaceAll .control (scrub s) "" = scrub s := by
    rw [jsReplaceAll_class .control (by simp), List.filter_eq_self.mpr, asString_toList]
    intro a ha
    have h1 := jsReplaceAll_subset .braces _ a (by rw [← scrub_eq]; exact ha)
    rw [jsReplaceAll_class .control (by simp) _, toList_asString] at h1
    have := List.of_mem_filter h1
    simpa using this
  have stage5 : jsReplaceAll .braces (scrub s) "" = scrub s :=
    jsReplaceAll_braces_id _ hnobrace
  rw [scrub_eq (scrub s), stage1, stage2, stage3, stage4, stage5]

lemma isEmail_has_dot (s : String) (h : isEmail s = true) : '.' ∈ s.toList := by
  unfold isEmail at h
  simp only [List.any_eq_true, Bool.and_eq_true, decide_eq_true_eq] at h
  obtain ⟨i, -, ⟨⟨⟨-, -⟩, -⟩, hdom⟩⟩ := h
  unfold emailDomain at hdom
  simp only [List.any_eq_true, Bool.and_eq_true, decide_eq_true_eq] at hdom
  obtain ⟨j, hj, ⟨⟨⟨⟨hdot, -⟩, -⟩, -⟩, -⟩⟩ := hdom
  rw [List.mem_range] at hj
  rw [List.getD_eq_getElem _ _ hj] at hdot
  have hmem : '.' ∈ s.toList.drop (i + 1) := by
    rw [← hdot]
    exact List.getElem_mem _
  exact List.drop_subset _ _ hmem

lemma scrub_not_email (s : String) : isEmail (scrub s) = false := by
  by_contra h
  have h' : isEmail (scrub s) = true := by
    cases he : isEmail (scrub s)
    · exact absurd he h
    · rfl
  exact scrub_no_dot s '.' (isEmail_has_dot _ h') rfl

lemma sanStr_default_eq (iv : Bool) (s : String) :
    sanStr defaultOptions iv s = if isEmail s then s else scrub s := rfl

lemma sanStr_default_idem (iv iv' : Bool) (s : String) :
    sanStr defaultOptions iv' (sanStr defaultOptions iv s) =
      sanStr defaultOptions iv s := by
  rw [sanStr_default_eq iv s]
  cases he : isEmail s with
  | true => simp [sanStr_default_eq, he]
  | false =>
    simp only [Bool.false_eq_true, if_false]
    rw [sanStr_default_eq, scrub_not_email]
    simp [scrub_idem]

lemma allowedDrop_default (k : String) : allowedDrop defaultOptions k = false := rfl

lemma deniedDrop_default (k : String) : deniedDrop defaultOptions k = false := rfl

lemma sanObjEntries_nil (o : SanOptions) (acc : List (String × Value)) (σ : List Nat) :
    sanObjEntries o [] acc σ = (acc, σ) := rfl

lemma sanObjEntries_default_cons (k : String) (v : Value)
    (rest : List (String × Value)) (acc : List (String × Value)) (σ : List Nat) :
    sanObjEntries defaultOptions ((k, v) :: rest) acc σ =
      if isEmailStr v then
        sanObjEntries defaultOptions rest
          (setKey acc (sanStr defaultOptions false k) v)
          (strState defaultOptions k σ)
      else
        sanObjEntries defaultOptions rest
          (setKey acc (sanStr defaultOptions false k)
            (sanitizeValue defaultOptions v true (strState defaultOptions k σ)).1)
          (sanitizeValue defaultOptions v true (strState defaultOptions k σ)).2 := by
  rw [sanObjEntries]
  simp only [allowedDrop_default, deniedDrop_default, Bool.false_eq_true, if_false,
    show defaultOptions.removeMatches = false from rfl, Bool.false_and,
    show defaultOptions.recursive = true from rfl, Bool.not_true, Bool.false_and,
    show defaultOptions.removeEmpty = false from rfl]

lemma sanArrElems_nil (o : SanOptions) (σ : List Nat) :
    sanArrElems o [] σ = ([], σ) := rfl

lemma sanArrElems_default_cons (x : Value) (rest : List Value) (σ : List Nat) :
    sanArrElems defaultOptions (x :: rest) σ =
      let r := sanitizeValue defaultOptions x false σ
      let q := sanArrElems defaultOptions rest r.2
      (r.1 :: q.1, q.2) := by
  rw [sanArrElems]
  simp only [show defaultOptions.recursive = true from rfl, Bool.not_true, Bool.false_and,
    Bool.false_eq_true, if_false]

lemma sanitizeValue_default_arr (xs : List Value) (iv : Bool) (σ : List Nat) :
    sanitizeValue defaultOptions (.vArr xs) iv σ =
      (.vArr (sanArrElems defaultOptions xs σ).1,
       (sanArrElems defaultOptions xs σ).2) := by
  rw [sanitizeValue]
  simp only [show defaultOptions.arrayShape.filterNull = false from rfl,
    show defaultOptions.arrayShape.distinct = false from rfl,
    Bool.false_eq_true, if_false]

lemma sanitizeValue_default_obj (es : List (String × Value)) (iv : Bool) (σ : List Nat) :
    sanitizeValue defaultOptions (.vObj es) iv σ =
      (.vObj (sanObjEntries defaultOptions es [] σ).1,
       (sanObjEntries defaultOptions es [] σ).2) := by
  rw [sanitizeValue]

/-- A value is a fixed point of the default-configuration transformer,
whatever position flag and pattern state it is sanitized under. -/
def Fixed (w : Value) : Prop :=
  ∀ (iv : Bool) (τ : List Nat), (sanitizeValue defaultOptions w iv τ).1 = w

/-- A key string is a fixed point of default key sanitization. -/
def KeyFixed (k : String) : Prop := sanStr defaultOptions false k = k

/-- Shape of the entries produced by one default-configuration object
pass: the key is key-sanitization-fixed and the value is either a
preserved email string or itself a transformer fixed point. -/
def EntryGood (e : String × Value) : Prop :=
  KeyFixed e.1 ∧ (isEmailStr e.2 = true ∨ Fixed e.2)

lemma fixed_null : Fixed .vNull := fun _ _ => rfl
lemma fixed_undef : Fixed .vUndef := fun _ _ => rfl
lemma fixed_num (n : Int) : Fixed (.vNum n) := fun _ _ => rfl
lemma fixed_bool (b : Bool) : Fixed (.vBool b) := fun _ _ => rfl
lemma fixed_date (t : Int) : Fixed (.vDate t) := fun _ _ => rfl
lemma fixed_other (t : Nat) : Fixed (.vOther t) := fun _ _ => rfl

lemma fixed_sanStr (iv : Bool) (s : String) :
    Fixed (.vStr (sanStr defaultOptions iv s)) := by
  intro iv' τ
  show Value.vStr (sanStr defaultOptions iv' (sanStr defaultOptions iv s)) = _
  rw [sanStr_default_idem]

lemma key_fixed_sanStr (k : String) : KeyFixed (sanStr defaultOptions false k) :=
  sanStr_default_idem false false k

lemma sanArrElems_fixed_id (ys : List Value) (hf : ∀ y ∈ ys, Fixed y) :
    ∀ τ, (sanArrElems defaultOptions ys τ).1 = ys := by
  induction ys with
  | nil => intro τ; rfl
  | cons y rest ih =>
    intro τ
    rw [sanArrElems_default_cons]
    simp only []
    rw [hf y (by simp) false τ, ih (fun x hx => hf x (List.mem_cons_of_mem y hx))]

lemma fixed_arr (ys : List Value) (hf : ∀ y ∈ ys, Fixed y) : Fixed (.vArr ys) := by
  intro iv τ
  rw [sanitizeValue_default_arr, sanArrElems_fixed_id ys hf]

lemma mem_setKey (acc : List (String × Value)) (k : String) (v : Value)
    (e : String × Value) (h : e ∈ setKey acc k v) : e ∈ acc ∨ e = (k, v) := by
  unfold setKey at h
  split_ifs at h
  · rcases List.mem_map.mp h with ⟨e', he', heq⟩
    by_cases hk : e'.1 = k
    · right; rw [← heq]; simp [hk]
    · left; rw [← heq]; simpa [hk] using he'
  · rcases List.mem_append.mp h with h1 | h1
    · exact Or.inl h1
    · right; simpa using h1

lemma keys_setKey (acc : List (String × Value)) (k : String) (v : Value) :
    (setKey acc k v).map Prod.fst =
      if acc.any (fun e => e.1 = k) then acc.map Prod.fst
      else acc.map Prod.fst ++ [k] := by
  unfold setKey
  split_ifs with h
  · rw [List.map_map]
    apply List.map_congr_left
    intro e _
    by_cases hk : e.1 = k
    · simp [hk]
    · simp [hk]
  · simp

lemma setKey_fresh (acc : List (String × Value)) (k : String) (v : Value)
    (h : k ∉ acc.map Prod.fst) : setKey acc k v = acc ++ [(k, v)] := by
  unfold setKey
  have hany : acc.any (fun e => e.1 = k) = false := by
    rw [List.any_eq_false]
    intro e he
    simp only [decide_eq_true_eq]
    intro hk
    exact h (List.mem_map.mpr ⟨e, he, hk⟩)
  rw [hany]
  simp

lemma sanObjEntries_good (es : List (String × Value)) :
    ∀ (acc : List (String × Value)) (σ : List Nat),
      (∀ e ∈ es, ∀ σ', Fixed ((sanitizeValue defaultOptions e.2 true σ').1)) →
      ∀ e ∈ (sanObjEntries defaultOptions es acc σ).1, e ∈ acc ∨ EntryGood e := by
  induction es with
  | nil =>
    intro acc σ _ e he
    rw [sanObjEntries_nil] at he
    exact Or.inl he
  | cons kv rest ih =>
    obtain ⟨k, v⟩ := kv
    intro acc σ H e he
    rw [sanObjEntries_default_cons] at he
    split_ifs at he with hem
    · rcases ih _ _ (fun x hx => H x (List.mem_cons_of_mem _ hx)) e he with h1 | h1
      · rcases mem_setKey _ _ _ _ h1 with h2 | h2
        · exact Or.inl h2
        · refine Or.inr ?_
          subst h2
          exact ⟨key_fixed_sanStr k, Or.inl hem⟩
      · exact Or.inr h1
    · rcases ih _ _ (fun x hx => H x (List.mem_cons_of_mem _ hx)) e he with h1 | h1
      · rcases mem_setKey _ _ _ _ h1 with h2 | h2
        · exact Or.inl h2
        · refine Or.inr ?_
          subst h2
          refine ⟨key_fixed_sanStr k, Or.inr ?_⟩
          intro iv τ
          have hfix := H (k, v) (by simp) (strState defaultOptions k σ)
          exact hfix iv τ
      · exact Or.inr h1

lemma sanObjEntries_keys_nodup (es : List (String × Value)) :
    ∀ (acc : List (String × Value)) (σ : List Nat),
      ((acc.map Prod.fst).Nodup) →
      ((sanObjEntries defaultOptions es acc σ).1.map Prod.fst).Nodup := by
  induction es with
  | nil =>
    intro acc σ h
    rw [sanObjEntries_nil]
    exact h
  | cons kv rest ih =>
    obtain ⟨k, v⟩ := kv
    intro acc σ h
    rw [sanObjEntries_default_cons]
    have hset : ∀ (w : Value),
        ((setKey acc (sanStr defaultOptions false k) w).map Prod.fst).Nodup := by
      intro w
      rw [keys_setKey]
      split_ifs with hc
      · exact h
      · refine List.Nodup.append h (List.nodup_singleton _) ?_
        intro a ha hb
        simp only [List.mem_singleton] at hb
        subst hb
        simp only [List.any_eq_true, not_exists, decide_eq_true_eq] at hc
        rcases List.mem_map.mp ha with ⟨e, he, hk⟩
        exact hc e ⟨he, hk⟩
    split_ifs with hem
    · exact ih _ _ (hset v)
    · exact ih _ _ (hset _)

lemma sanObjEntries_good_id (L : List (String × Value)) :
    ∀ (A : List (String × Value)) (σ : List Nat),
      (∀ e ∈ L, EntryGood e) →
      ((A.map Prod.fst ++ L.map Prod.fst).Nodup) →
      (sanObjEntries defaultOptions L A σ).1 = A ++ L := by
  induction L with
  | nil =>
    intro A σ _ _
    rw [sanObjEntries_nil]
    simp
  | cons kv rest ih =>
    obtain ⟨k, v⟩ := kv
    intro A σ hgood hnd
    have hkf : sanStr defaultOptions false k = k := (hgood (k, v) (by simp)).1
    have hkA : k ∉ A.map Prod.fst := by
      intro hmem
      rw [List.nodup_append] at hnd
      exact hnd.2.2 hmem (by simp)
    have hnd' : ((A ++ [(k, v)]).map Prod.fst ++ rest.map Prod.fst).Nodup := by
      rw [List.map_append]
      rw [List.append_assoc]
      simpa using hnd
    have hgood' : ∀ e ∈ rest, EntryGood e :=
      fun e he => hgood e (List.mem_cons_of_mem _ he)
    rw [sanObjEntries_default_cons]
    split_ifs with hem
    · rw [hkf, setKey_fresh _ _ _ hkA, ih _ _ hgood' hnd']
      simp
    · have hv : Fixed v := by
        rcases (hgood (k, v) (by simp)).2 with h1 | h1
        · exact absurd h1 (by simpa using hem)
        · exact h1
      rw [hkf, hv true _, setKey_fresh _ _ _ hkA, ih _ _ hgood' hnd']
      simp

lemma sanArrElems_mem (xs : List Value) :
    ∀ (σ : List Nat) (y : Value), y ∈ (sanArrElems defaultOptions xs σ).1 →
      ∃ x ∈ xs, ∃ σ', y = (sanitizeValue defaultOptions x false σ').1 := by
  induction xs with
  | nil => intro σ y hy; rw [sanArrElems_nil] at hy; simp at hy
  | cons x rest ih =>
    intro σ y hy
    rw [sanArrElems_default_cons] at hy
    simp only [List.mem_cons] at hy
    rcases hy with h1 | h1
    · exact ⟨x, by simp, σ, h1⟩
    · rcases ih _ _ h1 with ⟨x', hx', σ', hy'⟩
      exact ⟨x', List.mem_cons_of_mem _ hx', σ', hy'⟩

lemma fixed_sanitizeValue : ∀ (n : Nat) (v : Value), sizeOf v ≤ n →
    ∀ (iv : Bool) (σ : List Nat),
      Fixed ((sanitizeValue defaultOptions v iv σ).1) := by
  intro n
  induction n with
  | zero =>
    intro v h
    cases v <;> simp at h
  | succ n ihn =>
    intro v hsz iv σ
    cases v with
    | vNull => exact fixed_null
    | vUndef => exact fixed_undef
    | vNum m => exact fixed_num m
    | vBool b => exact fixed_bool b
    | vDate t => exact fixed_date t
    | vOther t => exact fixed_other t
    | vStr s => exact fixed_sanStr iv s
    | vArr xs =>
      have hxs : sizeOf xs ≤ n := by
        simp only [Value.vArr.sizeOf_spec] at hsz
        omega
      rw [sanitizeValue_default_arr]
      apply fixed_arr
      intro y hy
      rcases sanArrElems_mem xs σ y hy with ⟨x, hx, σ', hy'⟩
      have hx' : sizeOf x ≤ n := by
        have := List.sizeOf_lt_of_mem hx
        omega
      rw [hy']
      exact ihn x hx' false σ'
    | vObj es =>
      have hes : sizeOf es ≤ n := by
        simp only [Value.vObj.sizeOf_spec] at hsz
        omega
      have H : ∀ e ∈ es, ∀ σ', Fixed ((sanitizeValue defaultOptions e.2 true σ').1) := by
        intro e he σ'
        have h1 := List.sizeOf_lt_of_mem he
        have h2 : sizeOf e.2 < sizeOf e := by
          obtain ⟨a, b⟩ := e
          simp only [Prod.mk.sizeOf_spec]
          omega
        exact ihn e.2 (by omega) true σ'
      rw [sanitizeValue_default_obj]
      intro iv' τ
      rw [sanitizeValue_default_obj]
      simp only []
      have hgood := sanObjEntries_good es [] σ H
      have hnodup := sanObjEntries_keys_nodup es [] σ (by simp)
      have := sanObjEntries_good_id (sanObjEntries defaultOptions es [] σ).1 [] τ
        (fun e he => (hgood e he).resolve_left (by simp))
        (by simpa using hnodup)
      rw [this]
      simp

/-- `DEFAULT_OPTIONS` with `removeMatches: true` and everything else at
its default. -/
def removeMatchOptions : SanOptions := { defaultOptions with removeMatches := true }

/-- `DEFAULT_OPTIONS` with `arrayOptions: { filterNull: true, distinct: true }`. -/
def bothArrayOptions : SanOptions :=
  { defaultOptions with arrayShape := { filterNull := true, distinct := true } }

/-- The input object of the determinism experiment: two entries whose keys
are well-formed emails (so key sanitization touches no regex state) and
whose values match the default patterns through their keys only. -/
def statePairObj : List (String × Value) :=
  [("ab@cd.ef", .vNum 1), ("a@b.co", .vNum 1)]

/-- C1: for every string that is not recognized as an email address,
default-configuration sanitization (default pattern list applied in list
order on the accumulating string, each globally, replacement string `''`)
yields a string containing no `$` and no `.` character. -/
theorem c1_default_transform_no_operator_chars (s : String) (iv : Bool)
    (h : isEmail s = false) :
    '$' ∉ (sanStr defaultOptions iv s).toList ∧
    '.' ∉ (sanStr defaultOptions iv s).toList := by
  rw [sanStr_default_eq, h]
  simp only [Bool.false_eq_true, if_false]
  exact ⟨fun hx => scrub_no_dollar s '$' hx rfl, fun hx => scrub_no_dot s '.' hx rfl⟩

/-- Witness for C1 at the concrete non-email input `"a$b.c"`. -/
theorem c1_witness :
    isEmail "a$b.c" = false ∧
    ('$' ∉ (sanStr defaultOptions true "a$b.c").toList ∧
     '.' ∉ (sanStr defaultOptions true "a$b.c").toList) :=
  ⟨by decide, c1_default_transform_no_operator_chars "a$b.c" true (by decide)⟩

/-- C2: with `removeMatches: true` and all other options at their
defaults, sanitizing `{"role": "$super"}` produces the empty object: the
value `"$super"` matches the `$` pattern, so the whole entry is dropped
rather than rewritten. -/
theorem c2_removeMatches_drops_matching_entry :
    (sanitizeValue removeMatchOptions (.vObj [("role", .vStr "$super")]) false
        (zerosOf removeMatchOptions)).1 = .vObj [] := rfl

/-- C3: under the default configuration the value transformer is
idempotent on every mapping, sequence or scalar: a second pass (under any
regex state) returns the first pass's output unchanged. -/
theorem c3_default_sanitizeValue_idempotent (x : Value) (σ τ : List Nat) :
    (sanitizeValue defaultOptions
        ((sanitizeValue defaultOptions x false σ).1) false τ).1 =
      (sanitizeValue defaultOptions x false σ).1 :=
  fixed_sanitizeValue (sizeOf x) x (le_refl _) false σ false τ

/-- C4 counterexample: the email exemption applies in key position too.
The key `"a@b.co"` is a well-formed email; pattern scrubbing would remove
its dot (the fold yields `"a@bco"`), yet `sanitizeObject` leaves the key
untouched, so email keys are not passed through pattern scrubbing. -/
theorem c4_counterexample :
    (sanitizeValue defaultOptions (.vObj [("a@b.co", .vBool true)]) false
        (zerosOf defaultOptions)).1 = .vObj [("a@b.co", .vBool true)] ∧
    isEmail "a@b.co" = true ∧
    defaultPatterns.foldl (fun acc p => jsReplaceAll p acc "") "a@b.co" = "a@bco" ∧
    ("a@b.co" : String) ≠ "a@bco" :=
  ⟨rfl, by decide, by decide, by decide⟩

/-- C4 amended: the recognized-email exemption applies in both positions:
a mapping key that is a well-formed email skips pattern scrubbing
entirely (under any configuration), and in the default-configuration
object pass such a key reaches the output unchanged. -/
theorem c4_amended_email_keys_exempt (o : SanOptions) (k : String)
    (h : isEmail k = true) :
    sanStr o false k = k ∧
    ∀ (v : Value) (σ : List Nat),
      ((sanObjEntries defaultOptions [(k, v)] [] σ).1).map Prod.fst = [k] := by
  have hk : ∀ o' : SanOptions, sanStr o' false k = k := by
    intro o'
    unfold sanStr
    rw [h]
    simp
  refine ⟨hk o, ?_⟩
  intro v σ
  rw [sanObjEntries_default_cons]
  split_ifs with hem <;> rw [sanObjEntries_nil] <;> simp [setKey, hk]

/-- Witness for C4's amended statement at the email key `"a@b.co"`. -/
theorem c4_amended_witness :
    isEmail "a@b.co" = true ∧
    (sanStr defaultOptions false "a@b.co" = "a@b.co" ∧
     ∀ (v : Value) (σ : List Nat),
       ((sanObjEntries defaultOptions [("a@b.co", v)] [] σ).1).map Prod.fst =
         ["a@b.co"]) :=
  ⟨by decide, c4_amended_email_keys_exempt defaultOptions "a@b.co" (by decide)⟩

/-- C7: with `filterNull` and `distinct` enabled, `[1,1,2,null]`
sanitizes to `[1,2]` (order preserved, first occurrence kept, falsy
elements dropped before deduplication), and numeric zero and boolean
false are likewise removed by the falsy filter. -/
theorem c7_array_filter_then_dedupe :
    (sanitizeValue bothArrayOptions (.vArr [.vNum 1, .vNum 1, .vNum 2, .vNull])
        false (zerosOf bothArrayOptions)).1 = .vArr [.vNum 1, .vNum 2] ∧
    (sanitizeValue bothArrayOptions (.vArr [.vNum 0, .vBool false, .vNum 1])
        false (zerosOf bothArrayOptions)).1 = .vArr [.vNum 1] :=
  ⟨rfl, rfl⟩

/-- C9: the generic dispatcher `sanitizeValue` is total — it never
propagates an error and returns unrecognized types unchanged — while the
array- and object-specific entry points raise `type_error` exactly on
values of the wrong runtime shape. -/
theorem c9_dispatcher_total_entry_points_guarded (o : SanOptions) (v : Value)
    (iv : Bool) (σ : List Nat) :
    sanitizeValueE o v iv σ = .ok (sanitizeValue o v iv σ) ∧
    (isArrV v = false →
      sanitizeArrayE o v σ = .error ⟨"Input must be an array", "type_error"⟩) ∧
    (isObjV v = false →
      sanitizeObjectE o v σ = .error ⟨"Input must be an object", "type_error"⟩) ∧
    (∀ t, sanitizeValue o (.vOther t) iv σ = (.vOther t, σ)) := by
  refine ⟨?_, ?_, ?_, fun t => rfl⟩
  · cases v <;> rfl
  · intro h
    cases v <;> first | rfl | simp [isArrV] at h
  · intro h
    cases v <;> first | rfl | simp [isObjV] at h

/-- Witness for C9 at the scalar input `3`. -/
theorem c9_witness :
    isArrV (.vNum 3) = false ∧ isObjV (.vNum 3) = false ∧
    sanitizeValueE defaultOptions (.vNum 3) false [] =
      .ok (sanitizeValue defaultOptions (.vNum 3) false []) ∧
    sanitizeArrayE defaultOptions (.vNum 3) [] =
      .error ⟨"Input must be an array", "type_error"⟩ ∧
    sanitizeObjectE defaultOptions (.vNum 3) [] =
      .error ⟨"Input must be an object", "type_error"⟩ :=
  ⟨by decide, by decide,
   (c9_dispatcher_total_entry_points_guarded defaultOptions (.vNum 3) false []).1,
   (c9_dispatcher_total_entry_points_guarded defaultOptions (.vNum 3) false []).2.1 (by decide),
   (c9_dispatcher_total_entry_points_guarded defaultOptions (.vNum 3) false []).2.2.1 (by decide)⟩

/-- C10: with `removeMatches: true` and the shared global-flag default
patterns, `sanitizeObject` is not deterministic: on `statePairObj` a
first call (pristine `lastIndex` state) returns `{}`, while an immediate
second call on the same object returns `{"a@b.co": 1}`, because the
second `test` of the dot pattern resumes from the `lastIndex` left by the
first call.  This evaluates the code at the failing input of the reported
bug. -/
theorem c10_shared_regex_state_breaks_determinism :
    (sanitizeValue removeMatchOptions (.vObj statePairObj) false
        (zerosOf removeMatchOptions)).1 = .vObj [] ∧
    (sanitizeValue removeMatchOptions (.vObj statePairObj) false
        (sanitizeValue removeMatchOptions (.vObj statePairObj) false
          (zerosOf removeMatchOptions)).2).1 = .vObj [("a@b.co", .vNum 1)] ∧
    (Value.vObj [] ≠ .vObj [("a@b.co", .vNum 1)]) :=
  ⟨rfl, rfl, by simp⟩

/-- `DEFAULT_OPTIONS` with `stringOptions.maxLength` set to `m`. -/
def maxLenOptions (m : Nat) : SanOptions :=
  { defaultOptions with
      stringShape := { trim := false, lowercase := false, maxLength := some m } }

lemma sanStr_maxLen_eq (m : Nat) (iv : Bool) (s : String) :
    sanStr (maxLenOptions m) iv s =
      if isEmail s then s
      else if m ≠ 0 && iv then jsSliceTo m (scrub s) else scrub s := rfl

/-- C8 counterexample: with `maxLength: 3`, the email value
`"aaa@bb.co"` (9 characters) is returned untruncated both by the string
sanitizer in value position and through the object pass, because the
email exemption returns before the length cap is applied. -/
theorem c8_counterexample :
    sanStr (maxLenOptions 3) true "aaa@bb.co" = "aaa@bb.co" ∧
    (sanitizeValue (maxLenOptions 3) (.vObj [("k", .vStr "aaa@bb.co")]) false
        (zerosOf (maxLenOptions 3))).1 = .vObj [("k", .vStr "aaa@bb.co")] ∧
    isEmail "aaa@bb.co" = true ∧
    ("aaa@bb.co" : String).length = 9 ∧ ¬(9 ≤ 3) :=
  ⟨rfl, rfl, by decide, by decide, by decide⟩

/-- C8 amended: for any configured positive `maxLength`, non-email string
values sanitized in value position come out with at most `maxLength`
characters (email values are exempt), and key-position sanitization is
unaffected by `maxLength` — keys are never truncated. -/
theorem c8_amended_maxlength_caps_values_not_keys (m : Nat) (hm : 0 < m) :
    (∀ s : String, isEmail s = false →
      (sanStr (maxLenOptions m) true s).length ≤ m) ∧
    (∀ s : String, sanStr (maxLenOptions m) false s =
      sanStr defaultOptions false s) := by
  constructor
  · intro s he
    rw [sanStr_maxLen_eq, he]
    simp only [Bool.false_eq_true, if_false]
    rw [if_pos (by simp; omega)]
    show ((scrub s).toList.take m).length ≤ m
    simp [List.length_take]
  · intro s
    rw [sanStr_maxLen_eq, sanStr_default_eq]
    cases he : isEmail s <;> simp

/-- Witness for C8's amended statement at `maxLength = 3`. -/
theorem c8_amended_witness :
    (0 < 3 ∧ isEmail "hello" = false ∧
      (sanStr (maxLenOptions 3) true "hello").length ≤ 3) ∧
    sanStr (maxLenOptions 3) false "some-long-key" =
      sanStr defaultOptions false "some-long-key" :=
  ⟨⟨by decide, by decide,
    (c8_amended_maxlength_caps_values_not_keys 3 (by decide)).1 "hello" (by decide)⟩,
   (c8_amended_maxlength_caps_values_not_keys 3 (by decide)).2 "some-long-key"⟩

/-- C5: with skip route `/health` configured (auto mode), requests whose
URL is `/health`, `/health/` or `/health?x=1` bypass sanitization
entirely — the request passes through unmodified — while `/healthcheck`
goes through `handleRequest` on every configured target field. -/
theorem c5_skip_route_normalized_matching (o : SanOptions)
    (targets : List String) (custom : Option (Value → Value))
    (req : Request) (σ : List Nat) :
    (req.url = "/health" ∨ req.url = "/health/" ∨ req.url = "/health?x=1" →
      preHandler ["/health"] o targets custom req σ = (req, σ)) ∧
    (req.url = "/healthcheck" →
      preHandler ["/health"] o targets custom req σ =
        ({ req with fields := (handleRequest o targets custom req.fields σ).1 },
         (handleRequest o targets custom req.fields σ).2)) := by
  constructor
  · intro h
    have hs : shouldSkip ["/health"] req.url = true := by
      rcases h with h | h | h <;> rw [h] <;> decide
    unfold preHandler
    rw [hs]
    simp
  · intro h
    have hs : shouldSkip ["/health"] req.url = false := by
      rw [h]; decide
    unfold preHandler
    rw [hs]
    simp

/-- Witness for C5 at concrete requests. -/
theorem c5_witness :
    ((⟨"/health?x=1", [("body", .vStr "$x")]⟩ : Request).url = "/health" ∨
      (⟨"/health?x=1", [("body", .vStr "$x")]⟩ : Request).url = "/health/" ∨
      (⟨"/health?x=1", [("body", .vStr "$x")]⟩ : Request).url = "/health?x=1") ∧
    preHandler ["/health"] defaultOptions defaultTargets none
      ⟨"/health?x=1", [("body", .vStr "$x")]⟩ [] =
      (⟨"/health?x=1", [("body", .vStr "$x")]⟩, []) :=
  ⟨Or.inr (Or.inr rfl),
   (c5_skip_route_normalized_matching defaultOptions defaultTargets none
      ⟨"/health?x=1", [("body", .vStr "$x")]⟩ []).1 (Or.inr (Or.inr rfl))⟩

lemma mem_skipSet_aux (l : List (Option String)) :
    ∀ (acc : List (Option String)) (x : Option String),
      x ∈ l.foldl (fun acc y => if acc.contains y then acc else acc ++ [y]) acc ↔
        x ∈ acc ∨ x ∈ l := by
  induction l with
  | nil => intro acc x; simp
  | cons y l ih =>
    intro acc x
    rw [List.foldl_cons, ih]
    have hstep : x ∈ (if acc.contains y then acc else acc ++ [y]) ↔
        x ∈ acc ∨ x = y := by
      split_ifs with hc
      · constructor
        · exact Or.inl
        · rintro (h | h)
          · exact h
          · subst h; exact List.mem_of_elem_eq_true hc
      · simp [List.mem_append]
    rw [hstep]
    simp [or_assoc]

lemma mem_skipSetOf (routes : List String) (x : Option String) :
    x ∈ skipSetOf routes ↔ x ∈ routes.map cleanUrlStr := by
  unfold skipSetOf
  rw [mem_skipSet_aux]
  simp

/-- C6 counterexample: a skip route that itself normalizes to null makes
the null canonical form match.  With skip route `/`, a request to `/`
(normalized form null) is skipped — its `$`-key body passes through
unmodified — although `handleRequest` would have rewritten it. -/
theorem c6_counterexample :
    cleanUrlStr "/" = none ∧
    shouldSkip ["/"] "/" = true ∧
    preHandler ["/"] defaultOptions defaultTargets none
      ⟨"/", [("body", .vObj [("$a", .vNum 1)])]⟩ (zerosOf defaultOptions) =
      (⟨"/", [("body", .vObj [("$a", .vNum 1)])]⟩, zerosOf defaultOptions) ∧
    (handleRequest defaultOptions defaultTargets none
        [("body", .vObj [("$a", .vNum 1)])] (zerosOf defaultOptions)).1 =
      [("body", .vObj [("a", .vNum 1)])] ∧
    ("$a" : String) ≠ "a" :=
  ⟨rfl, rfl, rfl, rfl, by decide⟩

/-- C6 amended: route normalization of invalid input (a non-string, or a
URL that is empty after stripping the query/fragment and separators, such
as `/` or `/?q=1`) yields null; and provided no configured skip route
itself normalizes to null, a request whose normalized URL is null is
always sanitized, never skipped. -/
theorem c6_amended_null_url_never_skipped (routes : List String)
    (o : SanOptions) (targets : List String)
    (custom : Option (Value → Value)) (req : Request) (σ : List Nat)
    (hroutes : ∀ r ∈ routes, cleanUrlStr r ≠ none)
    (hurl : cleanUrlStr req.url = none) :
    (∀ v : Value, isStrV v = false → cleanUrlV v = none) ∧
    cleanUrlStr "/" = none ∧ cleanUrlStr "/?q=1" = none ∧
    preHandler routes o targets custom req σ =
      ({ req with fields := (handleRequest o targets custom req.fields σ).1 },
       (handleRequest o targets custom req.fields σ).2) := by
  refine ⟨?_, rfl, rfl, ?_⟩
  · intro v hv
    cases v <;> first | rfl | simp [isStrV] at hv
  · have hs : shouldSkip routes req.url = false := by
      unfold shouldSkip
      simp only []
      rw [hurl]
      have : (skipSetOf routes).contains none = false := by
        by_contra hc
        have hc' : (skipSetOf routes).contains none = true := by
          cases h : (skipSetOf routes).contains none
          · exact absurd h hc
          · rfl
        have hmem := List.mem_of_elem_eq_true hc'
        rw [mem_skipSetOf] at hmem
        rcases List.mem_map.mp hmem with ⟨r, hr, hnone⟩
        exact hroutes r hr hnone
      rw [this]
      simp
    unfold preHandler
    rw [hs]
    simp


/-- Witness for C6's amended statement at skip route `/health` and
request URL `/?q=1` (which normalizes to null). -/
theorem c6_amended_witness :
    ((∀ r ∈ ["/health"], cleanUrlStr r ≠ none) ∧
      cleanUrlStr "/?q=1" = none) ∧
    ((∀ v : Value, isStrV v = false → cleanUrlV v = none) ∧
     cleanUrlStr "/" = none ∧ cleanUrlStr "/?q=1" = none ∧
     preHandler ["/health"] defaultOptions defaultTargets none
       ⟨"/?q=1", [("body", .vStr "$x")]⟩ [] =
       (⟨"/?q=1",
         (handleRequest defaultOptions defaultTargets none
            [("body", .vStr "$x")] []).1⟩,
        (handleRequest defaultOptions defaultTargets none
           [("body", .vStr "$x")] []).2)) :=
  ⟨⟨by decide, by decide⟩,
   c6_amended_null_url_never_skipped ["/health"] defaultOptions defaultTargets
     none ⟨"/?q=1", [("body", .vStr "$x")]⟩ [] (by decide) (by decide)⟩
